import Mathlib

/-!
Settings codec of the Algolia Go client (`algoliasearch/types_settings.go`).

A shallow embedding of the `Settings` structure, of `Settings.clean` and of
`Settings.ToMap`, followed by the properties proved about them.

Modelling choices.

* A Go `interface{}` value is a `GoValue`: the nil interface, or a value
  tagged with its dynamic type.
* A Go slice is a `GoSlice`: the nil slice or a non-nil slice with its
  elements. Both have length zero when they hold nothing.
* A `float64` is a `Float64`: sign, integer significand and binary exponent
  for a finite value, plus the infinities and NaN.
* Go's `int` has a platform-dependent width, and the conversion of a
  floating-point value it cannot represent is implementation-dependent; both
  are fields of `Platform`.
* `Map` (`map[string]interface{}`) is an association list with distinct keys,
  observed through `Map.get`.
* What `ToMap` writes to standard error and to standard output is returned
  next to the map, as the lists of lines written, in order.
-/

namespace Algoliasearch

/-! ## Go values -/

/-- A Go slice: `nil` is the nil slice, `mk xs` a non-nil slice holding `xs`. -/
inductive GoSlice (α : Type) where
  | nil : GoSlice α
  | mk (elems : List α) : GoSlice α

/-- The elements of a slice, in order (what `range` visits). -/
def GoSlice.toList {α : Type} : GoSlice α → List α
  | .nil => []
  | .mk xs => xs

/-- Go's `len`. -/
def GoSlice.len {α : Type} (v : GoSlice α) : Nat :=
  v.toList.length

/-- Go's `append(v, x)`: the result is never the nil slice. -/
def GoSlice.append {α : Type} (v : GoSlice α) (x : α) : GoSlice α :=
  .mk (v.toList ++ [x])

/-- An IEEE-754 binary64 value. `finite neg mant exp` stands for
`(-1)^neg * mant * 2^exp`. -/
inductive Float64 where
  | finite (neg : Bool) (mant : Nat) (exp : Int) : Float64
  | inf (neg : Bool) : Float64
  | nan : Float64

/-- The triples that are binary64 values: a significand of at most 53 bits
and an exponent between the smallest subnormal and the largest finite one. -/
def Float64.isValid : Float64 → Bool
  | .finite _ mant exp => decide (mant < 2 ^ 53) && decide (-1074 ≤ exp) && decide (exp ≤ 971)
  | .inf _ => true
  | .nan => true

/-- The real number a finite `Float64` denotes. -/
def Float64.toRat : Float64 → Option ℚ
  | .finite neg mant exp => some ((if neg then -1 else 1) * (mant : ℚ) * (2 : ℚ) ^ exp)
  | .inf _ => none
  | .nan => none

/-- The value of a finite `Float64` with its fraction discarded (rounded
toward zero); `none` for the infinities and NaN. -/
def Float64.truncate : Float64 → Option Int
  | .finite neg mant exp =>
    let mag : Nat := if 0 ≤ exp then mant * 2 ^ exp.toNat else mant / 2 ^ (-exp).toNat
    some (if neg then -(mag : Int) else (mag : Int))
  | .inf _ => none
  | .nan => none

/-- A Go `interface{}` value. -/
inductive GoValue where
  /-- The nil interface value. -/
  | nil : GoValue
  | bool (b : Bool) : GoValue
  | int (n : Int) : GoValue
  | float64 (x : Float64) : GoValue
  | string (s : String) : GoValue
  /-- A `[]string`. -/
  | strings (v : GoSlice String) : GoValue
  /-- A `[]interface{}`. -/
  | slice (v : GoSlice GoValue) : GoValue
  /-- A `map[string]interface{}`. -/
  | object (kvs : List (String × GoValue)) : GoValue
  /-- A value of any other Go type, known by the name of that type. -/
  | other (typeName : String) : GoValue

/-- What `fmt.Println(reflect.TypeOf(v))` prints. -/
def GoValue.typeName : GoValue → String
  | .nil => "<nil>"
  | .bool _ => "bool"
  | .int _ => "int"
  | .float64 _ => "float64"
  | .string _ => "string"
  | .strings _ => "[]string"
  | .slice _ => "[]interface {}"
  | .object _ => "map[string]interface {}"
  | .other n => n

/-- The dynamic type is `bool`. -/
def GoValue.isBool : GoValue → Bool
  | .bool _ => true
  | _ => false

/-- The dynamic type is `float64`, the type a JSON number decodes to. -/
def GoValue.isNumber : GoValue → Bool
  | .float64 _ => true
  | _ => false

/-- The dynamic type is `[]interface{}`, the type a JSON array decodes to. -/
def GoValue.isSequence : GoValue → Bool
  | .slice _ => true
  | _ => false

/-- The dynamic type is `string`. -/
def GoValue.isString : GoValue → Bool
  | .string _ => true
  | _ => false

/-- The value is the nil interface (`v == nil` in Go). -/
def GoValue.isNil : GoValue → Bool
  | .nil => true
  | _ => false

/-! ## Platform -/

/-- What Go leaves to the platform in `int(v)` for a `float64` `v`. -/
structure Platform where
  /-- Go's `int` is 64 bits wide when true, 32 bits wide otherwise. -/
  int64 : Bool
  /-- The result of converting a value that `int` cannot represent. -/
  overflowInt : Float64 → Int

/-- The number of bits of Go's `int`. -/
def Platform.intBits (p : Platform) : Nat :=
  if p.int64 then 64 else 32

/-- The smallest `int`. -/
def Platform.minInt (p : Platform) : Int :=
  -(2 ^ (p.intBits - 1))

/-- The largest `int`. -/
def Platform.maxInt (p : Platform) : Int :=
  2 ^ (p.intBits - 1) - 1

/-- Reading of an integer as a two's complement `int`. -/
def Platform.wrap (p : Platform) (z : Int) : Int :=
  (z + 2 ^ (p.intBits - 1)) % 2 ^ p.intBits - 2 ^ (p.intBits - 1)

/-- Go's `int(v)` for a `float64` `v`: the fraction is discarded; when the
result does not fit `int` the value is the platform's. -/
def float64ToInt (p : Platform) (v : Float64) : Int :=
  match v.truncate with
  | some z => if p.minInt ≤ z ∧ z ≤ p.maxInt then z else p.wrap (p.overflowInt v)
  | none => p.wrap (p.overflowInt v)

/-- The gc compiler on amd64: a 64-bit `int`, and the "integer indefinite"
value `-2^63` for every conversion that does not fit. -/
def amd64 : Platform :=
  { int64 := true, overflowInt := fun _ => -(2 ^ 63) }

/-! ## Map -/

/-- Go's `Map`, a `map[string]interface{}`. -/
abbrev Map := List (String × GoValue)

/-- The value under key `k` (`m[k]`), if there is one. -/
def Map.get (m : Map) (k : String) : Option GoValue :=
  match m with
  | [] => none
  | (k', v) :: rest => if k' = k then some v else Map.get rest k

/-- Go's `delete(m, k)`. -/
def Map.delete (m : Map) (k : String) : Map :=
  m.filter (fun e => decide (e.1 ≠ k))

/-- Go's `m[k] = v`. -/
def Map.set (m : Map) (k : String) (v : GoValue) : Map :=
  (k, v) :: Map.delete m k

/-- The keys of the map. -/
def Map.keys (m : Map) : List String :=
  m.map (fun e => e.1)

/-! ## Settings -/

/-- The structure `Settings`, field by field. -/
structure Settings where
  AllowCompressionOfIntegerArray : Bool
  AttributeForDistinct : String
  AttributesForFaceting : GoSlice String
  AttributesToIndex : GoSlice String
  CustomRanking : GoSlice String
  NumericAttributesToIndex : GoSlice String
  NumericAttributesForFiltering : GoSlice String
  Ranking : GoSlice String
  Replicas : GoSlice String
  SearchableAttributes : GoSlice String
  SeparatorsToIndex : String
  Slaves : GoSlice String
  UnretrievableAttributes : GoSlice String
  DisableTypoToleranceOnAttributes : GoSlice String
  DisableTypoToleranceOnWords : GoSlice String
  AdvancedSyntax : Bool
  AllowTyposOnNumericTokens : Bool
  AttributesToHighlight : GoSlice String
  AttributesToRetrieve : GoSlice String
  AttributesToSnippet : GoSlice String
  Distinct : GoValue
  HighlightPostTag : String
  HighlightPreTag : String
  HitsPerPage : Int
  IgnorePlurals : Bool
  MaxValuesPerFacet : Int
  MinProximity : Int
  MinWordSizefor1Typo : Int
  MinWordSizefor2Typos : Int
  OptionalWords : GoSlice String
  QueryType : String
  RemoveStopWords : GoValue
  ReplaceSynonymsInHighlight : Bool
  SnippetEllipsisText : String
  TypoTolerance : String

/-- The zero value of `Settings` (`Settings{}` in Go). -/
def Settings.zero : Settings :=
  { AllowCompressionOfIntegerArray := false
    AttributeForDistinct := ""
    AttributesForFaceting := .nil
    AttributesToIndex := .nil
    CustomRanking := .nil
    NumericAttributesToIndex := .nil
    NumericAttributesForFiltering := .nil
    Ranking := .nil
    Replicas := .nil
    SearchableAttributes := .nil
    SeparatorsToIndex := ""
    Slaves := .nil
    UnretrievableAttributes := .nil
    DisableTypoToleranceOnAttributes := .nil
    DisableTypoToleranceOnWords := .nil
    AdvancedSyntax := false
    AllowTyposOnNumericTokens := false
    AttributesToHighlight := .nil
    AttributesToRetrieve := .nil
    AttributesToSnippet := .nil
    Distinct := .nil
    HighlightPostTag := ""
    HighlightPreTag := ""
    HitsPerPage := 0
    IgnorePlurals := false
    MaxValuesPerFacet := 0
    MinProximity := 0
    MinWordSizefor1Typo := 0
    MinWordSizefor2Typos := 0
    OptionalWords := .nil
    QueryType := ""
    RemoveStopWords := .nil
    ReplaceSynonymsInHighlight := false
    SnippetEllipsisText := ""
    TypoTolerance := "" }

/-- The method `clean`: the nil `interface{}` fields are set to `false`. -/
def Settings.clean (s : Settings) : Settings :=
  let s := match s.Distinct with
    | .nil => { s with Distinct := .bool false }
    | _ => s
  match s.RemoveStopWords with
  | .nil => { s with RemoveStopWords := .bool false }
  | _ => s

/-! ## ToMap -/

/-- The map literal `ToMap` starts from: every field except `RemoveStopWords`,
`Distinct` and `TypoTolerance`. -/
def Settings.initialMap (s : Settings) : Map :=
  [ ("allowCompressionOfIntegerArray", .bool s.AllowCompressionOfIntegerArray),
    ("attributeForDistinct", .string s.AttributeForDistinct),
    ("attributesForFaceting", .strings s.AttributesForFaceting),
    ("attributesToIndex", .strings s.AttributesToIndex),
    ("customRanking", .strings s.CustomRanking),
    ("numericAttributesToIndex", .strings s.NumericAttributesToIndex),
    ("numericAttributesForFiltering", .strings s.NumericAttributesForFiltering),
    ("ranking", .strings s.Ranking),
    ("replicas", .strings s.Replicas),
    ("searchableAttributes", .strings s.SearchableAttributes),
    ("separatorsToIndex", .string s.SeparatorsToIndex),
    ("slaves", .strings s.Slaves),
    ("unretrievableAttributes", .strings s.UnretrievableAttributes),
    ("disableTypoToleranceOnAttributes", .strings s.DisableTypoToleranceOnAttributes),
    ("disableTypoToleranceOnWords", .strings s.DisableTypoToleranceOnWords),
    ("advancedSyntax", .bool s.AdvancedSyntax),
    ("allowTyposOnNumericTokens", .bool s.AllowTyposOnNumericTokens),
    ("attributesToHighlight", .strings s.AttributesToHighlight),
    ("attributesToRetrieve", .strings s.AttributesToRetrieve),
    ("attributesToSnippet", .strings s.AttributesToSnippet),
    ("highlightPostTag", .string s.HighlightPostTag),
    ("highlightPreTag", .string s.HighlightPreTag),
    ("hitsPerPage", .int s.HitsPerPage),
    ("ignorePlurals", .bool s.IgnorePlurals),
    ("maxValuesPerFacet", .int s.MaxValuesPerFacet),
    ("minProximity", .int s.MinProximity),
    ("minWordSizefor1Typo", .int s.MinWordSizefor1Typo),
    ("minWordSizefor2Typos", .int s.MinWordSizefor2Typos),
    ("optionalWords", .strings s.OptionalWords),
    ("queryType", .string s.QueryType),
    ("replaceSynonymsInHighlight", .bool s.ReplaceSynonymsInHighlight),
    ("snippetEllipsisText", .string s.SnippetEllipsisText) ]

/-- One step of the first loop of `ToMap`: the key of an entry whose value is
a `[]string` of length zero is appended to the keys to remove. -/
def collectEmptySlice (sliceAttributesToRemove : GoSlice String) (e : String × GoValue) :
    GoSlice String :=
  match e.2 with
  | .strings v => if v.len = 0 then sliceAttributesToRemove.append e.1 else sliceAttributesToRemove
  | _ => sliceAttributesToRemove

/-- The first loop of `ToMap`, over the entries of `m`. Go visits the entries of
a map in no fixed order; here they are visited in the order of the list. Which
keys are collected does not depend on that order (`mem_sliceAttributesToRemove`),
and neither does the map after their deletion (`Map.get_foldl_delete`). -/
def sliceAttributesToRemove (m : Map) : GoSlice String :=
  m.foldl collectEmptySlice .nil

/-- The second loop of `ToMap`: every collected key is deleted. -/
def removeSliceAttributes (m : Map) (attrs : GoSlice String) : Map :=
  attrs.toList.foldl (fun m attr => Map.delete m attr) m

/-- The line written for an element of `RemoveStopWords` that is not a string. -/
def removeStopWordsElementDiagnostic : String :=
  "Settings.ToMap(): `removeStopWords` slice doesn't only contain strings"

/-- The line written when `RemoveStopWords` has neither of its two types. -/
def removeStopWordsTypeDiagnostic : String :=
  "Settings.ToMap(): Wrong type for `removeStopWords`"

/-- One step of the loop over a `[]interface{}` `RemoveStopWords`: a string is
appended to `languages`, anything else writes a line to standard error. -/
def collectLanguage (acc : GoSlice String × List String) (itf : GoValue) :
    GoSlice String × List String :=
  match itf with
  | .string lang => (acc.1.append lang, acc.2)
  | _ => (acc.1, acc.2 ++ [removeStopWordsElementDiagnostic])

/-- What `ToMap` returns and writes. -/
structure ToMapResult where
  /-- The returned map. -/
  m : Map
  /-- The lines written to standard error, in order. -/
  stderr : List String
  /-- The lines written to standard output, in order. -/
  stdout : List String

/-- The type switch on `RemoveStopWords`. -/
def handleRemoveStopWords (m : Map) (removeStopWords : GoValue) : ToMapResult :=
  match removeStopWords with
  | .bool v => { m := Map.set m "removeStopWords" (.bool v), stderr := [], stdout := [] }
  | .slice v =>
    let r := v.toList.foldl collectLanguage (.nil, [])
    let languages := r.1
    { m := if languages.len > 0 then Map.set m "removeStopWords" (.strings languages) else m
      stderr := r.2
      stdout := [] }
  | _ =>
    { m := m
      stderr := [removeStopWordsTypeDiagnostic]
      stdout := [removeStopWords.typeName] }

/-- The type switch on `Distinct`. -/
def handleDistinct (p : Platform) (m : Map) (distinct : GoValue) : Map :=
  match distinct with
  | .bool v => Map.set m "distinct" (.bool v)
  | .float64 v => Map.set m "distinct" (.int (float64ToInt p v))
  | _ => m

/-- The method `ToMap`. -/
def Settings.ToMap (p : Platform) (s : Settings) : ToMapResult :=
  let m := s.initialMap
  let m := removeSliceAttributes m (sliceAttributesToRemove m)
  let r := handleRemoveStopWords m s.RemoveStopWords
  { r with m := handleDistinct p r.m s.Distinct }

/-- The method `ToMap` when `range m` visits the entries of the map literal in
the order `visit`, a rearrangement of the literal chosen by the Go runtime at
each call. `Settings.ToMap` is the case in which the entries are visited in the
order in which the literal lists them. -/
def Settings.ToMapRanging (p : Platform) (s : Settings) (visit : Map) : ToMapResult :=
  let m := s.initialMap
  let m := removeSliceAttributes m (visit.foldl collectEmptySlice .nil)
  let r := handleRemoveStopWords m s.RemoveStopWords
  { r with m := handleDistinct p r.m s.Distinct }

/-- One call of `ToMap` through its pointer receiver: the `Settings` value the
receiver points to after the call, next to what the call returns and writes.
No statement of `ToMap` assigns to a field of the receiver. -/
def Settings.ToMapCall (p : Platform) (s : Settings) (visit : Map) : Settings × ToMapResult :=
  (s, s.ToMapRanging p visit)

/-- A platform with a 32-bit `int` (386 with SSE2): the "integer indefinite"
value `-2^31` for every conversion that does not fit. -/
def i386 : Platform :=
  { int64 := false, overflowInt := fun _ => -(2 ^ 31) }

/-! ## Vocabulary of the properties -/

/-- The string elements of a heterogeneous sequence, in their original order. -/
def stringElements (v : List GoValue) : List String :=
  v.filterMap (fun itf => match itf with
    | .string lang => some lang
    | _ => none)

/-- The number of elements of a heterogeneous sequence that are not strings. -/
def nonStringCount (v : List GoValue) : Nat :=
  v.countP (fun itf => !itf.isString)

/-- The 16 fields of type `[]string`, each with its wire key. -/
def stringSliceFields : List (String × (Settings → GoSlice String)) :=
  [ ("attributesForFaceting", Settings.AttributesForFaceting),
    ("attributesToIndex", Settings.AttributesToIndex),
    ("customRanking", Settings.CustomRanking),
    ("numericAttributesToIndex", Settings.NumericAttributesToIndex),
    ("numericAttributesForFiltering", Settings.NumericAttributesForFiltering),
    ("ranking", Settings.Ranking),
    ("replicas", Settings.Replicas),
    ("searchableAttributes", Settings.SearchableAttributes),
    ("slaves", Settings.Slaves),
    ("unretrievableAttributes", Settings.UnretrievableAttributes),
    ("disableTypoToleranceOnAttributes", Settings.DisableTypoToleranceOnAttributes),
    ("disableTypoToleranceOnWords", Settings.DisableTypoToleranceOnWords),
    ("attributesToHighlight", Settings.AttributesToHighlight),
    ("attributesToRetrieve", Settings.AttributesToRetrieve),
    ("attributesToSnippet", Settings.AttributesToSnippet),
    ("optionalWords", Settings.OptionalWords) ]

/-- The keys of the wire representation, in the order of their enumeration:
indexing parameters, query expansion, default query parameters. -/
def wireKeys : List String :=
  [ "allowCompressionOfIntegerArray", "attributeForDistinct", "attributesForFaceting",
    "attributesToIndex", "customRanking", "numericAttributesToIndex",
    "numericAttributesForFiltering", "ranking", "replicas", "searchableAttributes",
    "separatorsToIndex", "slaves", "unretrievableAttributes",
    "disableTypoToleranceOnAttributes", "disableTypoToleranceOnWords",
    "advancedSyntax", "allowTyposOnNumericTokens", "attributesToHighlight",
    "attributesToRetrieve", "attributesToSnippet", "distinct", "highlightPostTag",
    "highlightPreTag", "hitsPerPage", "ignorePlurals", "maxValuesPerFacet", "minProximity",
    "minWordSizefor1Typo", "minWordSizefor2Typos", "optionalWords", "queryType",
    "removeStopWords", "replaceSynonymsInHighlight", "snippetEllipsisText", "typoTolerance" ]

/-- The wire keys other than `typoTolerance`, `distinct` and `removeStopWords`. -/
def nonPolymorphicWireKeys : List String :=
  wireKeys.filter (fun k =>
    decide (k ≠ "typoTolerance") && decide (k ≠ "distinct") && decide (k ≠ "removeStopWords"))

/-- A `Settings` value in which every `[]string` field holds one element, and
`Distinct` and `RemoveStopWords` are nil. -/
def Settings.populated : Settings :=
  { Settings.zero with
    AttributesForFaceting := .mk ["category"]
    AttributesToIndex := .mk ["title"]
    CustomRanking := .mk ["desc(popularity)"]
    NumericAttributesToIndex := .mk ["price"]
    NumericAttributesForFiltering := .mk ["price"]
    Ranking := .mk ["typo"]
    Replicas := .mk ["replica"]
    SearchableAttributes := .mk ["title"]
    Slaves := .mk ["slave"]
    UnretrievableAttributes := .mk ["secret"]
    DisableTypoToleranceOnAttributes := .mk ["sku"]
    DisableTypoToleranceOnWords := .mk ["word"]
    AttributesToHighlight := .mk ["title"]
    AttributesToRetrieve := .mk ["title"]
    AttributesToSnippet := .mk ["body:10"]
    OptionalWords := .mk ["the"] }

/-- The 16 fields of type `bool`, `string` or `int`, each with its wire key and
with its value as it is stored in an `interface{}`. -/
def scalarFields : List (String × (Settings → GoValue)) :=
  [ ("allowCompressionOfIntegerArray", fun s => .bool s.AllowCompressionOfIntegerArray),
    ("attributeForDistinct", fun s => .string s.AttributeForDistinct),
    ("separatorsToIndex", fun s => .string s.SeparatorsToIndex),
    ("advancedSyntax", fun s => .bool s.AdvancedSyntax),
    ("allowTyposOnNumericTokens", fun s => .bool s.AllowTyposOnNumericTokens),
    ("highlightPostTag", fun s => .string s.HighlightPostTag),
    ("highlightPreTag", fun s => .string s.HighlightPreTag),
    ("hitsPerPage", fun s => .int s.HitsPerPage),
    ("ignorePlurals", fun s => .bool s.IgnorePlurals),
    ("maxValuesPerFacet", fun s => .int s.MaxValuesPerFacet),
    ("minProximity", fun s => .int s.MinProximity),
    ("minWordSizefor1Typo", fun s => .int s.MinWordSizefor1Typo),
    ("minWordSizefor2Typos", fun s => .int s.MinWordSizefor2Typos),
    ("queryType", fun s => .string s.QueryType),
    ("replaceSynonymsInHighlight", fun s => .bool s.ReplaceSynonymsInHighlight),
    ("snippetEllipsisText", fun s => .string s.SnippetEllipsisText) ]

/-- The integer obtained from a rational by truncation toward zero. -/
def truncTowardZero (q : ℚ) : Int :=
  if 0 ≤ q then ⌊q⌋ else ⌈q⌉

/-! ## Lemmas on maps -/

theorem Map.get_delete (m : Map) (k' k : String) :
    Map.get (Map.delete m k') k = if k = k' then none else Map.get m k := by
  induction m with
  | nil => simp [Map.delete, Map.get]
  | cons e rest ih =>
    obtain ⟨a, v⟩ := e
    unfold Map.delete at ih ⊢
    by_cases hak : a = k'
    · subst hak
      by_cases hk : k = a
      · subst hk
        simpa [List.filter, Map.get] using ih
      · have hk' : ¬ a = k := fun h => hk h.symm
        simpa [List.filter, Map.get, hk, hk'] using ih
    · by_cases hk : k = k'
      · subst hk
        simpa [List.filter, Map.get, hak] using ih
      · by_cases hka : a = k
        · simp [List.filter, Map.get, hak, hk, hka]
        · simpa [List.filter, Map.get, hak, hk, hka] using ih

theorem Map.get_set (m : Map) (k' k : String) (v : GoValue) :
    Map.get (Map.set m k' v) k = if k = k' then some v else Map.get m k := by
  unfold Map.set
  by_cases hk : k = k'
  · subst hk
    simp [Map.get]
  · have hk' : ¬ k' = k := fun h => hk h.symm
    simp [Map.get, hk, hk', Map.get_delete]

theorem Map.get_foldl_delete (attrs : List String) (m : Map) (k : String) :
    Map.get (attrs.foldl (fun m attr => Map.delete m attr) m) k =
      if k ∈ attrs then none else Map.get m k := by
  induction attrs generalizing m with
  | nil => simp
  | cons a rest ih =>
    simp only [List.foldl_cons, ih, Map.get_delete, List.mem_cons]
    by_cases h1 : k ∈ rest <;> by_cases h2 : k = a <;> simp [h1, h2]

theorem get_removeSliceAttributes (m : Map) (attrs : GoSlice String) (k : String) :
    Map.get (removeSliceAttributes m attrs) k =
      if k ∈ attrs.toList then none else Map.get m k := by
  unfold removeSliceAttributes
  exact Map.get_foldl_delete attrs.toList m k

theorem Map.mem_of_get {m : Map} {k : String} {v : GoValue} (h : Map.get m k = some v) :
    (k, v) ∈ m := by
  induction m with
  | nil => simp [Map.get] at h
  | cons e rest ih =>
    obtain ⟨a, w⟩ := e
    by_cases ha : a = k
    · subst ha
      simp [Map.get] at h
      simp [h]
    · simp [Map.get, ha] at h
      exact List.mem_cons_of_mem _ (ih h)

theorem Map.mem_keys_iff (m : Map) (k : String) :
    k ∈ Map.keys m ↔ (Map.get m k).isSome = true := by
  induction m with
  | nil => simp [Map.keys, Map.get]
  | cons e rest ih =>
    obtain ⟨a, w⟩ := e
    have hkeys : Map.keys ((a, w) :: rest) = a :: Map.keys rest := rfl
    rw [hkeys, List.mem_cons, ih]
    by_cases ha : a = k
    · subst ha
      simp [Map.get]
    · have ha' : ¬ k = a := fun h => ha h.symm
      simp [Map.get, ha, ha']

theorem stringElements_ne_nil_iff (v : List GoValue) :
    stringElements v ≠ [] ↔ ∃ lang, GoValue.string lang ∈ v := by
  induction v with
  | nil => simp [stringElements]
  | cons itf rest ih =>
    cases itf with
    | string lang =>
      have hs : stringElements (GoValue.string lang :: rest) = lang :: stringElements rest := by
        simp [stringElements]
      rw [hs]
      simp
    | _ => simpa [stringElements] using ih

/-! ## Lemmas on the loops of `ToMap` -/

theorem GoSlice.toList_append {α : Type} (v : GoSlice α) (x : α) :
    (v.append x).toList = v.toList ++ [x] := rfl

theorem mem_foldl_collectEmptySlice (m : Map) (acc : GoSlice String) (k : String) :
    k ∈ (m.foldl collectEmptySlice acc).toList ↔
      k ∈ acc.toList ∨ ∃ v, (k, GoValue.strings v) ∈ m ∧ v.len = 0 := by
  induction m generalizing acc with
  | nil => simp
  | cons e rest ih =>
    obtain ⟨a, w⟩ := e
    rw [List.foldl_cons, ih]
    cases w with
    | strings u =>
      by_cases hu : u.len = 0
      · simp only [collectEmptySlice, hu, if_true, GoSlice.toList_append, List.mem_append,
          List.mem_singleton, List.mem_cons, Prod.mk.injEq, GoValue.strings.injEq,
          List.not_mem_nil, or_false]
        constructor
        · rintro ((h | h) | ⟨v, h, hv⟩)
          · exact Or.inl h
          · exact Or.inr ⟨u, Or.inl ⟨h, rfl⟩, hu⟩
          · exact Or.inr ⟨v, Or.inr h, hv⟩
        · rintro (h | ⟨v, (⟨h, _⟩ | h), hv⟩)
          · exact Or.inl (Or.inl h)
          · exact Or.inl (Or.inr h)
          · exact Or.inr ⟨v, h, hv⟩
      · simp only [collectEmptySlice, hu, if_false, List.mem_cons, Prod.mk.injEq,
          GoValue.strings.injEq]
        constructor
        · rintro (h | ⟨v, h, hv⟩)
          · exact Or.inl h
          · exact Or.inr ⟨v, Or.inr h, hv⟩
        · rintro (h | ⟨v, (⟨_, h⟩ | h), hv⟩)
          · exact Or.inl h
          · exact absurd (h ▸ hv) hu
          · exact Or.inr ⟨v, h, hv⟩
    | _ => simp [collectEmptySlice]

theorem mem_sliceAttributesToRemove (m : Map) (k : String) :
    k ∈ (sliceAttributesToRemove m).toList ↔ ∃ v, (k, GoValue.strings v) ∈ m ∧ v.len = 0 := by
  unfold sliceAttributesToRemove
  rw [mem_foldl_collectEmptySlice]
  simp [GoSlice.toList]

theorem GoSlice.eq_mk_of_len_pos {α : Type} (v : GoSlice α) (h : v.len > 0) :
    v = GoSlice.mk v.toList := by
  cases v with
  | nil => simp [GoSlice.len, GoSlice.toList] at h
  | mk xs => rfl

theorem foldl_collectLanguage (v : List GoValue) (acc : GoSlice String × List String) :
    ((v.foldl collectLanguage acc).1.toList = acc.1.toList ++ stringElements v) ∧
      ((v.foldl collectLanguage acc).2 =
        acc.2 ++ List.replicate (nonStringCount v) removeStopWordsElementDiagnostic) := by
  induction v generalizing acc with
  | nil => simp [stringElements, nonStringCount]
  | cons itf rest ih =>
    rw [List.foldl_cons]
    obtain ⟨h1, h2⟩ := ih (collectLanguage acc itf)
    cases itf with
    | string lang =>
      have hs : stringElements (GoValue.string lang :: rest) = lang :: stringElements rest := by
        simp [stringElements]
      have hc : nonStringCount (GoValue.string lang :: rest) = nonStringCount rest := by
        simp [nonStringCount, GoValue.isString]
      rw [hs, hc, h1, h2]
      simp [collectLanguage, GoSlice.toList_append]
    | _ =>
      rw [h1, h2]
      simp [collectLanguage, stringElements, nonStringCount, GoValue.isString,
        List.replicate_succ]

/-! ## Lemmas on the two type switches -/

theorem get_handleDistinct_of_ne (p : Platform) (m : Map) (d : GoValue) {k : String}
    (h : k ≠ "distinct") : Map.get (handleDistinct p m d) k = Map.get m k := by
  cases d <;> simp [handleDistinct, Map.get_set, h]

theorem get_handleRemoveStopWords_of_ne (m : Map) (r : GoValue) {k : String}
    (h : k ≠ "removeStopWords") : Map.get (handleRemoveStopWords m r).m k = Map.get m k := by
  cases r with
  | slice v =>
    simp only [handleRemoveStopWords]
    split <;> simp [Map.get_set, h]
  | _ => simp [handleRemoveStopWords, Map.get_set, h]

theorem ToMap_m (p : Platform) (s : Settings) :
    (s.ToMap p).m =
      handleDistinct p
        (handleRemoveStopWords
          (removeSliceAttributes s.initialMap (sliceAttributesToRemove s.initialMap))
          s.RemoveStopWords).m
        s.Distinct := rfl

theorem ToMap_stderr (p : Platform) (s : Settings) :
    (s.ToMap p).stderr =
      (handleRemoveStopWords
        (removeSliceAttributes s.initialMap (sliceAttributesToRemove s.initialMap))
        s.RemoveStopWords).stderr := rfl

/-- Away from the two keys set by the type switches, the returned map is the
map literal without the entries collected by the first loop. -/
theorem ToMap_get_of_ne (p : Platform) (s : Settings) {k : String}
    (hd : k ≠ "distinct") (hr : k ≠ "removeStopWords") :
    Map.get (s.ToMap p).m k =
      if k ∈ (sliceAttributesToRemove s.initialMap).toList then none
      else Map.get s.initialMap k := by
  rw [ToMap_m, get_handleDistinct_of_ne p _ _ hd, get_handleRemoveStopWords_of_ne _ _ hr,
    get_removeSliceAttributes]

theorem initialMap_get_distinct (s : Settings) : Map.get s.initialMap "distinct" = none := rfl

theorem initialMap_get_removeStopWords (s : Settings) :
    Map.get s.initialMap "removeStopWords" = none := rfl

theorem pruned_get_removeStopWords (s : Settings) :
    Map.get (removeSliceAttributes s.initialMap (sliceAttributesToRemove s.initialMap))
      "removeStopWords" = none := by
  rw [get_removeSliceAttributes, initialMap_get_removeStopWords]
  simp

theorem pruned_get_distinct (s : Settings) :
    Map.get (removeSliceAttributes s.initialMap (sliceAttributesToRemove s.initialMap))
      "distinct" = none := by
  rw [get_removeSliceAttributes, initialMap_get_distinct]
  simp

/-- The value `ToMap` leaves under `removeStopWords`. -/
theorem ToMap_get_removeStopWords (p : Platform) (s : Settings) :
    Map.get (s.ToMap p).m "removeStopWords" =
      match s.RemoveStopWords with
      | .bool b => some (.bool b)
      | .slice v =>
        if stringElements v.toList = [] then none
        else some (.strings (.mk (stringElements v.toList)))
      | _ => none := by
  rw [ToMap_m, get_handleDistinct_of_ne p _ _ (by decide)]
  cases hr : s.RemoveStopWords with
  | bool b => simp [handleRemoveStopWords, Map.get_set]
  | slice v =>
    have h1 : (List.foldl collectLanguage (GoSlice.nil, []) v.toList).1.toList =
        stringElements v.toList := by
      rw [(foldl_collectLanguage v.toList (GoSlice.nil, [])).1]
      rfl
    simp only [handleRemoveStopWords]
    by_cases hl : stringElements v.toList = []
    · have h0 : ¬ (List.foldl collectLanguage (GoSlice.nil, []) v.toList).1.len > 0 := by
        simp [GoSlice.len, h1, hl]
      rw [if_neg h0, if_pos hl]
      exact pruned_get_removeStopWords s
    · have h0 : (List.foldl collectLanguage (GoSlice.nil, []) v.toList).1.len > 0 := by
        have : (stringElements v.toList).length > 0 := List.length_pos.mpr hl
        simpa [GoSlice.len, h1] using this
      rw [if_pos h0, if_neg hl, Map.get_set, if_pos rfl, GoSlice.eq_mk_of_len_pos _ h0, h1]
  | _ => simpa [handleRemoveStopWords] using pruned_get_removeStopWords s

/-- The value `ToMap` leaves under `distinct`. -/
theorem ToMap_get_distinct (p : Platform) (s : Settings) :
    Map.get (s.ToMap p).m "distinct" =
      match s.Distinct with
      | .bool b => some (.bool b)
      | .float64 x => some (.int (float64ToInt p x))
      | _ => none := by
  have hbase : Map.get (handleRemoveStopWords
      (removeSliceAttributes s.initialMap (sliceAttributesToRemove s.initialMap))
      s.RemoveStopWords).m "distinct" = none := by
    rw [get_handleRemoveStopWords_of_ne _ _ (by decide)]
    exact pruned_get_distinct s
  rw [ToMap_m]
  cases hd : s.Distinct <;> simp [handleDistinct, Map.get_set, hbase]

/-! ## Lemmas on `int(v)` -/

theorem Platform.wrap_le_maxInt (p : Platform) (z : Int) : p.wrap z ≤ p.maxInt := by
  unfold Platform.wrap Platform.maxInt Platform.intBits
  cases p.int64 <;> simp <;> omega

theorem Platform.minInt_le_wrap (p : Platform) (z : Int) : p.minInt ≤ p.wrap z := by
  unfold Platform.wrap Platform.minInt Platform.intBits
  cases p.int64 <;> simp <;> omega

theorem Platform.maxInt_lt (p : Platform) : p.maxInt < 2 ^ 63 := by
  unfold Platform.maxInt Platform.intBits
  cases p.int64 <;> simp

/-- The result of `int(v)` is always an `int` of the platform. -/
theorem float64ToInt_range (p : Platform) (v : Float64) :
    p.minInt ≤ float64ToInt p v ∧ float64ToInt p v ≤ p.maxInt := by
  unfold float64ToInt
  split
  · split
    · assumption
    · exact ⟨p.minInt_le_wrap _, p.wrap_le_maxInt _⟩
  · exact ⟨p.minInt_le_wrap _, p.wrap_le_maxInt _⟩

/-- A `Float64` whose value is the integer `n` truncates to `n`. -/
theorem Float64.truncate_of_toRat_int {x : Float64} {n : Int}
    (h : x.toRat = some (n : ℚ)) : x.truncate = some n := by
  cases x with
  | inf neg => simp [Float64.toRat] at h
  | nan => simp [Float64.toRat] at h
  | finite neg mant exp =>
    simp only [Float64.toRat, Option.some.injEq] at h
    simp only [Float64.truncate, Option.some.injEq]
    by_cases he : 0 ≤ exp
    · obtain ⟨e, rfl⟩ := Int.eq_ofNat_of_zero_le he
      simp only [he, if_true, Int.toNat_ofNat]
      rw [zpow_natCast] at h
      cases neg
      · simp only [Bool.false_eq_true, if_false, one_mul] at h ⊢
        exact_mod_cast h
      · simp only [if_true] at h ⊢
        have h' : ((-((mant * 2 ^ e : ℕ) : ℤ) : ℤ) : ℚ) = (n : ℚ) := by
          push_cast
          linarith
        exact_mod_cast h'
    · have hlt : exp < 0 := not_le.mp he
      obtain ⟨k, hk⟩ := Int.exists_eq_neg_ofNat (le_of_lt hlt)
      subst hk
      simp only [he, if_false, neg_neg, Int.toNat_ofNat]
      have hpos : (0 : ℚ) < (2 : ℚ) ^ k := by positivity
      rw [zpow_neg, zpow_natCast] at h
      cases neg
      · simp only [Bool.false_eq_true, if_false, one_mul] at h ⊢
        have h1 : (mant : ℚ) = (n : ℚ) * (2 : ℚ) ^ k := by
          field_simp at h
          linarith
        have h2 : (mant : ℤ) = n * 2 ^ k := by exact_mod_cast h1
        rw [Int.natCast_div, h2]
        push_cast
        exact Int.mul_ediv_cancel _ (by positivity)
      · simp only [if_true] at h ⊢
        have h1 : (mant : ℚ) = (-n : ℚ) * (2 : ℚ) ^ k := by
          field_simp at h
          linarith
        have h2 : (mant : ℤ) = (-n) * 2 ^ k := by exact_mod_cast h1
        rw [Int.natCast_div, h2]
        push_cast
        rw [Int.mul_ediv_cancel _ (by positivity)]
        simp

theorem truncTowardZero_intCast (z : Int) : truncTowardZero (z : ℚ) = z := by
  unfold truncTowardZero
  split <;> simp

theorem truncTowardZero_of_nonneg {r : ℚ} (h : 0 ≤ r) : truncTowardZero r = ⌊r⌋ := by
  unfold truncTowardZero
  rw [if_pos h]

theorem truncTowardZero_neg_of_nonneg {r : ℚ} (h : 0 ≤ r) : truncTowardZero (-r) = -⌊r⌋ := by
  unfold truncTowardZero
  by_cases h0 : 0 ≤ -r
  · have hr : r = 0 := le_antisymm (by linarith) h
    subst hr
    simp
  · rw [if_neg h0, Int.ceil_neg]

/-- The conversion `Float64.truncate` is truncation toward zero of the value. -/
theorem Float64.truncate_eq_truncTowardZero {x : Float64} {q : ℚ}
    (h : x.toRat = some q) : x.truncate = some (truncTowardZero q) := by
  cases x with
  | inf neg => simp [Float64.toRat] at h
  | nan => simp [Float64.toRat] at h
  | finite neg mant exp =>
    by_cases he : 0 ≤ exp
    · obtain ⟨e, rfl⟩ := Int.eq_ofNat_of_zero_le he
      have hq : q = (((if neg then -1 else 1) * ((mant * 2 ^ e : ℕ) : ℤ) : ℤ) : ℚ) := by
        simp only [Float64.toRat, Option.some.injEq] at h
        rw [← h, zpow_natCast]
        cases neg <;> simp
      rw [hq, truncTowardZero_intCast]
      exact Float64.truncate_of_toRat_int (hq ▸ h)
    · have hlt : exp < 0 := not_le.mp he
      obtain ⟨k, hk⟩ := Int.exists_eq_neg_ofNat (le_of_lt hlt)
      subst hk
      simp only [Float64.toRat, Option.some.injEq] at h
      simp only [Float64.truncate, he, if_false, neg_neg, Int.toNat_ofNat, Option.some.injEq]
      rw [zpow_neg, zpow_natCast] at h
      have hfloor : ⌊(mant : ℚ) / ((2 ^ k : ℕ) : ℚ)⌋ = ((mant / 2 ^ k : ℕ) : ℤ) := by
        rw [Rat.floor_natCast_div_natCast]
        exact (Int.natCast_div _ _).symm
      have hnn : (0 : ℚ) ≤ (mant : ℚ) / ((2 ^ k : ℕ) : ℚ) := by positivity
      cases neg
      · have hq : q = (mant : ℚ) / ((2 ^ k : ℕ) : ℚ) := by
          rw [← h]
          push_cast
          simp [div_eq_mul_inv]
        rw [hq, truncTowardZero_of_nonneg hnn, hfloor]
        simp
      · have hq : q = -((mant : ℚ) / ((2 ^ k : ℕ) : ℚ)) := by
          rw [← h]
          push_cast
          simp [div_eq_mul_inv]
        rw [hq, truncTowardZero_neg_of_nonneg hnn, hfloor]
        simp

/-- A binary64 value that is not an integer truncates to less than `2^53` in
absolute value. -/
theorem Float64.truncate_bound_of_not_int {x : Float64} {q : ℚ}
    (hv : x.isValid = true) (h : x.toRat = some q) (hni : ∀ n : Int, q ≠ (n : ℚ)) :
    -(2 ^ 53) < truncTowardZero q ∧ truncTowardZero q < 2 ^ 53 := by
  have ht := Float64.truncate_eq_truncTowardZero h
  cases x with
  | inf neg => simp [Float64.toRat] at h
  | nan => simp [Float64.toRat] at h
  | finite neg mant exp =>
    by_cases he : 0 ≤ exp
    · exfalso
      obtain ⟨e, rfl⟩ := Int.eq_ofNat_of_zero_le he
      refine hni ((if neg then -1 else 1) * ((mant * 2 ^ e : ℕ) : ℤ)) ?_
      simp only [Float64.toRat, Option.some.injEq] at h
      rw [← h, zpow_natCast]
      cases neg <;> simp
    · simp only [Float64.isValid, Bool.and_eq_true, decide_eq_true_eq] at hv
      obtain ⟨⟨hm, -⟩, -⟩ := hv
      simp only [Float64.truncate, he, if_false, Option.some.injEq] at ht
      have hdiv : mant / 2 ^ (-exp).toNat ≤ mant := Nat.div_le_self _ _
      generalize mant / 2 ^ (-exp).toNat = d at hdiv ht
      cases neg
      · simp only [Bool.false_eq_true, if_false] at ht
        constructor <;> omega
      · simp only [if_true] at ht
        constructor <;> omega

/-! ## Properties of `ToMap` -/

/-- C1: for each of the 16 `[]string` fields, when the field is empty (the nil
slice or a slice of length 0) the map returned by `ToMap` has no entry under
the field's key; and no value of the returned map is a `[]string` of length 0. -/
theorem toMap_omits_empty_slices (p : Platform) (s : Settings) :
    (∀ f ∈ stringSliceFields, (f.2 s).len = 0 → Map.get (s.ToMap p).m f.1 = none) ∧
      (∀ k v, Map.get (s.ToMap p).m k = some (GoValue.strings v) → v.len ≠ 0) := by
  constructor
  · intro f hf hlen
    have hmem : (f.1, GoValue.strings (f.2 s)) ∈ s.initialMap := by
      simp only [stringSliceFields, List.mem_cons, List.mem_singleton, List.not_mem_nil,
        or_false] at hf
      rcases hf with h | h | h | h | h | h | h | h | h | h | h | h | h | h | h | h <;>
        (subst h; simp [Settings.initialMap])
    have hne : f.1 ≠ "distinct" ∧ f.1 ≠ "removeStopWords" := by
      simp only [stringSliceFields, List.mem_cons, List.mem_singleton, List.not_mem_nil,
        or_false] at hf
      rcases hf with h | h | h | h | h | h | h | h | h | h | h | h | h | h | h | h <;>
        (subst h; exact ⟨by decide, by decide⟩)
    rw [ToMap_get_of_ne p s hne.1 hne.2,
      if_pos ((mem_sliceAttributesToRemove _ _).mpr ⟨f.2 s, hmem, hlen⟩)]
  · intro k v hget hlen
    by_cases hd : k = "distinct"
    · subst hd
      rw [ToMap_get_distinct] at hget
      cases hdv : s.Distinct <;> simp [hdv] at hget
    · by_cases hr : k = "removeStopWords"
      · subst hr
        rw [ToMap_get_removeStopWords] at hget
        cases hrv : s.RemoveStopWords with
        | slice w =>
          simp only [hrv] at hget
          by_cases hl : stringElements w.toList = []
          · simp [hl] at hget
          · simp only [if_neg hl, Option.some.injEq, GoValue.strings.injEq] at hget
            subst hget
            exact hl (List.length_eq_zero.mp hlen)
        | _ => simp [hrv] at hget
      · rw [ToMap_get_of_ne p s hd hr] at hget
        by_cases hmem : k ∈ (sliceAttributesToRemove s.initialMap).toList
        · simp [hmem] at hget
        · rw [if_neg hmem] at hget
          exact hmem ((mem_sliceAttributesToRemove _ _).mpr ⟨v, Map.mem_of_get hget, hlen⟩)

/-- Witness for C1: in the zero `Settings` the field `Ranking` is the nil slice and
`ranking` is absent from the map. -/
theorem toMap_omits_empty_slices_witness :
    Settings.zero.Ranking.len = 0 ∧ Map.get (Settings.zero.ToMap amd64).m "ranking" = none :=
  ⟨rfl, (toMap_omits_empty_slices amd64 Settings.zero).1 ("ranking", Settings.Ranking)
    (by simp [stringSliceFields]) rfl⟩

/-- C2: the map returned by `ToMap` has no entry under `typoTolerance`, whatever
the `Settings` value holds. -/
theorem toMap_no_typoTolerance (p : Platform) (s : Settings) :
    Map.get (s.ToMap p).m "typoTolerance" = none := by
  rw [ToMap_get_of_ne p s (by decide) (by decide)]
  have h : Map.get s.initialMap "typoTolerance" = none := rfl
  rw [h]
  simp

/-- C3 (as amended): when `Distinct` is a boolean `b`, `ToMap` maps `distinct` to
the boolean `b`; when `Distinct` is a `float64` whose value is an integer `n`
that Go's `int` can represent, `ToMap` maps `distinct` to the `int` `n`. -/
theorem toMap_distinct_resolved (p : Platform) (s : Settings) :
    (∀ b, s.Distinct = GoValue.bool b →
        Map.get (s.ToMap p).m "distinct" = some (GoValue.bool b)) ∧
      (∀ x (n : Int), s.Distinct = GoValue.float64 x → x.toRat = some (n : ℚ) →
        p.minInt ≤ n → n ≤ p.maxInt →
        Map.get (s.ToMap p).m "distinct" = some (GoValue.int n)) := by
  constructor
  · intro b hb
    rw [ToMap_get_distinct, hb]
  · intro x n hx hn hmin hmax
    rw [ToMap_get_distinct, hx]
    simp only [float64ToInt, Float64.truncate_of_toRat_int hn, hmin, hmax, and_self, if_true]

/-- Witness for C3: `Distinct = true` gives `distinct: true`, and the `float64`
`3` gives the `int` `3`. -/
theorem toMap_distinct_resolved_witness :
    Map.get ({ Settings.zero with Distinct := GoValue.bool true }.ToMap amd64).m "distinct" =
        some (GoValue.bool true) ∧
      Map.get ({ Settings.zero with
          Distinct := GoValue.float64 (Float64.finite false 3 0) }.ToMap amd64).m "distinct" =
        some (GoValue.int 3) :=
  ⟨(toMap_distinct_resolved amd64 { Settings.zero with Distinct := GoValue.bool true }).1
      true rfl,
    (toMap_distinct_resolved amd64
      { Settings.zero with Distinct := GoValue.float64 (Float64.finite false 3 0) }).2
      (Float64.finite false 3 0) 3 rfl (by simp [Float64.toRat])
      (by simp [Platform.minInt, Platform.intBits, amd64])
      (by simp [Platform.maxInt, Platform.intBits, amd64])⟩

/-- Counterexample to C3 as stated: the `float64` `2^63` is a numeric value equal
to the integer `9223372036854775808`, yet on no platform does `ToMap` map
`distinct` to that integer; on amd64 it maps `distinct` to `-2^63`. -/
theorem toMap_distinct_integer_counterexample :
    (Float64.finite false 1 63).isValid = true ∧
      (Float64.finite false 1 63).toRat = some ((9223372036854775808 : Int) : ℚ) ∧
      (∀ p : Platform,
        Map.get ({ Settings.zero with
            Distinct := GoValue.float64 (Float64.finite false 1 63) }.ToMap p).m "distinct" ≠
          some (GoValue.int 9223372036854775808)) ∧
      Map.get ({ Settings.zero with
          Distinct := GoValue.float64 (Float64.finite false 1 63) }.ToMap amd64).m "distinct" =
        some (GoValue.int (-9223372036854775808)) := by
  refine ⟨rfl, ?_, ?_, rfl⟩
  · simp only [Float64.toRat, Bool.false_eq_true, if_false, Option.some.injEq]
    norm_num
  · intro p h
    rw [ToMap_get_distinct] at h
    simp only [Option.some.injEq, GoValue.int.injEq] at h
    have h1 := (float64ToInt_range p (Float64.finite false 1 63)).2
    have h2 := p.maxInt_lt
    rw [h] at h1
    norm_num at h2
    omega

/-- C4 (the code at the failing input): with `Distinct` the string `"x"` and
`RemoveStopWords` the boolean `false`, `ToMap` leaves `distinct` out of the map
and writes nothing, neither to standard error nor to standard output. -/
theorem toMap_distinct_wrong_type_silent :
    Map.get ({ Settings.zero with
        Distinct := GoValue.string "x",
        RemoveStopWords := GoValue.bool false }.ToMap amd64).m "distinct" = none ∧
      ({ Settings.zero with
        Distinct := GoValue.string "x",
        RemoveStopWords := GoValue.bool false }.ToMap amd64).stderr = [] ∧
      ({ Settings.zero with
        Distinct := GoValue.string "x",
        RemoveStopWords := GoValue.bool false }.ToMap amd64).stdout = [] :=
  ⟨rfl, rfl, rfl⟩

/-- C5: when `RemoveStopWords` is a boolean `b`, `ToMap` maps `removeStopWords` to
`b`; when it is a `[]interface{}` `v` whose string elements, in their original
order, are `L`, then `removeStopWords` is mapped to exactly `L` if `L` is not
empty and is absent if `L` is empty. -/
theorem toMap_removeStopWords_resolved (p : Platform) (s : Settings) :
    (∀ b, s.RemoveStopWords = GoValue.bool b →
        Map.get (s.ToMap p).m "removeStopWords" = some (GoValue.bool b)) ∧
      (∀ v, s.RemoveStopWords = GoValue.slice v →
        (stringElements v.toList ≠ [] →
          Map.get (s.ToMap p).m "removeStopWords" =
            some (GoValue.strings (GoSlice.mk (stringElements v.toList)))) ∧
        (stringElements v.toList = [] →
          Map.get (s.ToMap p).m "removeStopWords" = none)) := by
  refine ⟨?_, ?_⟩
  · intro b hb
    rw [ToMap_get_removeStopWords, hb]
  · intro v hv
    rw [ToMap_get_removeStopWords, hv]
    exact ⟨fun h => by simp [h], fun h => by simp [h]⟩

/-- Witness for C5: `false` gives `false`; `["en", 7, "fr"]` gives `["en", "fr"]`;
the empty sequence gives no entry. -/
theorem toMap_removeStopWords_resolved_witness :
    Map.get ({ Settings.zero with
        RemoveStopWords := GoValue.bool false }.ToMap amd64).m "removeStopWords" =
        some (GoValue.bool false) ∧
      Map.get ({ Settings.zero with
        RemoveStopWords := GoValue.slice (GoSlice.mk
          [GoValue.string "en", GoValue.float64 (Float64.finite false 7 0),
            GoValue.string "fr"]) }.ToMap amd64).m "removeStopWords" =
        some (GoValue.strings (GoSlice.mk ["en", "fr"])) ∧
      Map.get ({ Settings.zero with
        RemoveStopWords := GoValue.slice (GoSlice.mk []) }.ToMap amd64).m "removeStopWords" =
        none :=
  ⟨(toMap_removeStopWords_resolved amd64
      { Settings.zero with RemoveStopWords := GoValue.bool false }).1 false rfl,
    ((toMap_removeStopWords_resolved amd64
      { Settings.zero with RemoveStopWords := GoValue.slice (GoSlice.mk
          [GoValue.string "en", GoValue.float64 (Float64.finite false 7 0),
            GoValue.string "fr"]) }).2 _ rfl).1 (by simp [stringElements, GoSlice.toList]),
    ((toMap_removeStopWords_resolved amd64
      { Settings.zero with RemoveStopWords := GoValue.slice (GoSlice.mk []) }).2 _ rfl).2
      rfl⟩

/-- C6: when `RemoveStopWords` is a `[]interface{}` `v`, `ToMap` returns its map
and writes to standard error one line per element of `v` that is not a string,
and nothing else: as many lines as `v` has such elements, none when every
element is a string. -/
theorem toMap_removeStopWords_diagnostics (p : Platform) (s : Settings) (v : GoSlice GoValue)
    (hv : s.RemoveStopWords = GoValue.slice v) :
    (s.ToMap p).stderr.length = nonStringCount v.toList ∧
      (s.ToMap p).stderr =
        List.replicate (nonStringCount v.toList) removeStopWordsElementDiagnostic ∧
      (s.ToMap p).stdout = [] ∧
      ((∀ itf ∈ v.toList, itf.isString = true) → (s.ToMap p).stderr = []) ∧
      ∃ m, (s.ToMap p).m = m := by
  have herr : (s.ToMap p).stderr =
      List.replicate (nonStringCount v.toList) removeStopWordsElementDiagnostic := by
    rw [ToMap_stderr, hv]
    simp only [handleRemoveStopWords]
    rw [(foldl_collectLanguage v.toList (GoSlice.nil, [])).2]
    simp
  have hout : (s.ToMap p).stdout = [] := by
    simp only [Settings.ToMap, hv, handleRemoveStopWords]
  refine ⟨by rw [herr, List.length_replicate], herr, hout, ?_, ⟨_, rfl⟩⟩
  intro hall
  have h0 : nonStringCount v.toList = 0 := by
    unfold nonStringCount
    rw [List.countP_eq_zero]
    intro itf hitf
    simp [hall itf hitf]
  rw [herr, h0]
  rfl

/-- Witness for C6: `["en", 7, "fr"]` has one element that is not a string, and
`ToMap` writes one line to standard error. -/
theorem toMap_removeStopWords_diagnostics_witness :
    ({ Settings.zero with
        RemoveStopWords := GoValue.slice (GoSlice.mk
          [GoValue.string "en", GoValue.float64 (Float64.finite false 7 0),
            GoValue.string "fr"]) }.ToMap amd64).stderr.length = 1 :=
  (toMap_removeStopWords_diagnostics amd64
    { Settings.zero with
        RemoveStopWords := GoValue.slice (GoSlice.mk
          [GoValue.string "en", GoValue.float64 (Float64.finite false 7 0),
            GoValue.string "fr"]) } _ rfl).1

/-- C7: when `RemoveStopWords` is neither a boolean nor a `[]interface{}` (the nil
interface of a `Settings` that was never cleaned included), the map returned by
`ToMap` has no entry under `removeStopWords` and the wrong-type line is written
to standard error. -/
theorem toMap_removeStopWords_wrong_type (p : Platform) (s : Settings)
    (hb : s.RemoveStopWords.isBool = false) (hs : s.RemoveStopWords.isSequence = false) :
    Map.get (s.ToMap p).m "removeStopWords" = none ∧
      (s.ToMap p).stderr = [removeStopWordsTypeDiagnostic] := by
  constructor
  · rw [ToMap_get_removeStopWords]
    cases hr : s.RemoveStopWords <;> simp_all [GoValue.isBool, GoValue.isSequence]
  · rw [ToMap_stderr]
    cases hr : s.RemoveStopWords <;>
      simp_all [GoValue.isBool, GoValue.isSequence, handleRemoveStopWords]

/-- Witness for C7: the zero `Settings`, whose `RemoveStopWords` is the nil
interface. -/
theorem toMap_removeStopWords_wrong_type_witness :
    Settings.zero.RemoveStopWords.isNil = true ∧
      Map.get (Settings.zero.ToMap amd64).m "removeStopWords" = none ∧
      (Settings.zero.ToMap amd64).stderr = [removeStopWordsTypeDiagnostic] :=
  ⟨rfl, toMap_removeStopWords_wrong_type amd64 Settings.zero rfl rfl⟩

/-! ## Properties of `clean` -/

/-- C8: `clean` sets `Distinct` to the boolean `false` when it was the nil
interface and leaves it unchanged otherwise; it does the same, independently,
for `RemoveStopWords`; every other field is left unchanged. -/
theorem clean_sets_nil_fields_only (s : Settings) :
    (s.Distinct = GoValue.nil → s.clean.Distinct = GoValue.bool false) ∧
      (s.Distinct ≠ GoValue.nil → s.clean.Distinct = s.Distinct) ∧
      (s.RemoveStopWords = GoValue.nil → s.clean.RemoveStopWords = GoValue.bool false) ∧
      (s.RemoveStopWords ≠ GoValue.nil → s.clean.RemoveStopWords = s.RemoveStopWords) ∧
      s.clean.AllowCompressionOfIntegerArray = s.AllowCompressionOfIntegerArray ∧
      s.clean.AttributeForDistinct = s.AttributeForDistinct ∧
      s.clean.AttributesForFaceting = s.AttributesForFaceting ∧
      s.clean.AttributesToIndex = s.AttributesToIndex ∧
      s.clean.CustomRanking = s.CustomRanking ∧
      s.clean.NumericAttributesToIndex = s.NumericAttributesToIndex ∧
      s.clean.NumericAttributesForFiltering = s.NumericAttributesForFiltering ∧
      s.clean.Ranking = s.Ranking ∧
      s.clean.Replicas = s.Replicas ∧
      s.clean.SearchableAttributes = s.SearchableAttributes ∧
      s.clean.SeparatorsToIndex = s.SeparatorsToIndex ∧
      s.clean.Slaves = s.Slaves ∧
      s.clean.UnretrievableAttributes = s.UnretrievableAttributes ∧
      s.clean.DisableTypoToleranceOnAttributes = s.DisableTypoToleranceOnAttributes ∧
      s.clean.DisableTypoToleranceOnWords = s.DisableTypoToleranceOnWords ∧
      s.clean.AdvancedSyntax = s.AdvancedSyntax ∧
      s.clean.AllowTyposOnNumericTokens = s.AllowTyposOnNumericTokens ∧
      s.clean.AttributesToHighlight = s.AttributesToHighlight ∧
      s.clean.AttributesToRetrieve = s.AttributesToRetrieve ∧
      s.clean.AttributesToSnippet = s.AttributesToSnippet ∧
      s.clean.HighlightPostTag = s.HighlightPostTag ∧
      s.clean.HighlightPreTag = s.HighlightPreTag ∧
      s.clean.HitsPerPage = s.HitsPerPage ∧
      s.clean.IgnorePlurals = s.IgnorePlurals ∧
      s.clean.MaxValuesPerFacet = s.MaxValuesPerFacet ∧
      s.clean.MinProximity = s.MinProximity ∧
      s.clean.MinWordSizefor1Typo = s.MinWordSizefor1Typo ∧
      s.clean.MinWordSizefor2Typos = s.MinWordSizefor2Typos ∧
      s.clean.OptionalWords = s.OptionalWords ∧
      s.clean.QueryType = s.QueryType ∧
      s.clean.ReplaceSynonymsInHighlight = s.ReplaceSynonymsInHighlight ∧
      s.clean.SnippetEllipsisText = s.SnippetEllipsisText ∧
      s.clean.TypoTolerance = s.TypoTolerance := by
  unfold Settings.clean
  cases hd : s.Distinct <;> cases hr : s.RemoveStopWords <;> simp [hd, hr]

/-- Witness for C8: in the zero `Settings` both fields are nil and become `false`;
a `Distinct` that holds `true` next to a nil `RemoveStopWords` is kept. -/
theorem clean_sets_nil_fields_only_witness :
    Settings.zero.clean.Distinct = GoValue.bool false ∧
      Settings.zero.clean.RemoveStopWords = GoValue.bool false ∧
      ({ Settings.zero with Distinct := GoValue.bool true }).clean.Distinct =
        GoValue.bool true ∧
      ({ Settings.zero with Distinct := GoValue.bool true }).clean.RemoveStopWords =
        GoValue.bool false :=
  ⟨(clean_sets_nil_fields_only Settings.zero).1 rfl,
    (clean_sets_nil_fields_only Settings.zero).2.2.1 rfl,
    (clean_sets_nil_fields_only { Settings.zero with Distinct := GoValue.bool true }).2.1
      (by simp),
    (clean_sets_nil_fields_only { Settings.zero with Distinct := GoValue.bool true }).2.2.1
      rfl⟩

/-- Counterexample to C9 as stated: a `Distinct` holding the string `"x"` still
holds it after `clean`, a value that is neither a boolean nor a number; likewise
a `RemoveStopWords` holding the number `1`. -/
theorem clean_permitted_types_counterexample :
    ({ Settings.zero with Distinct := GoValue.string "x" }).clean.Distinct =
        GoValue.string "x" ∧
      ({ Settings.zero with Distinct := GoValue.string "x" }).clean.Distinct.isBool = false ∧
      ({ Settings.zero with Distinct := GoValue.string "x" }).clean.Distinct.isNumber = false ∧
      ({ Settings.zero with
          RemoveStopWords := GoValue.float64 (Float64.finite false 1 0) }).clean.RemoveStopWords =
        GoValue.float64 (Float64.finite false 1 0) :=
  ⟨rfl, rfl, rfl, rfl⟩

/-- C9 (as amended): after `clean` neither `Distinct` nor `RemoveStopWords` is the
nil interface; and when `Distinct` was nil, a boolean or a number it is afterwards
exactly one of boolean and number; when `RemoveStopWords` was nil, a boolean or a
`[]interface{}` it is afterwards exactly one of boolean and `[]interface{}`. -/
theorem clean_not_nil_and_permitted (s : Settings) :
    s.clean.Distinct.isNil = false ∧
      s.clean.RemoveStopWords.isNil = false ∧
      (s.Distinct.isNil = true ∨ s.Distinct.isBool = true ∨ s.Distinct.isNumber = true →
        (s.clean.Distinct.isBool = true ∧ s.clean.Distinct.isNumber = false) ∨
          (s.clean.Distinct.isBool = false ∧ s.clean.Distinct.isNumber = true)) ∧
      (s.RemoveStopWords.isNil = true ∨ s.RemoveStopWords.isBool = true ∨
          s.RemoveStopWords.isSequence = true →
        (s.clean.RemoveStopWords.isBool = true ∧ s.clean.RemoveStopWords.isSequence = false) ∨
          (s.clean.RemoveStopWords.isBool = false ∧
            s.clean.RemoveStopWords.isSequence = true)) := by
  unfold Settings.clean
  cases hd : s.Distinct <;> cases hr : s.RemoveStopWords <;>
    simp [hd, hr, GoValue.isNil, GoValue.isBool, GoValue.isNumber, GoValue.isSequence]

/-- Witness for C9: the zero `Settings`, whose two fields are nil, holds the
boolean `false` in both after `clean`. -/
theorem clean_not_nil_and_permitted_witness :
    Settings.zero.Distinct.isNil = true ∧
      ((Settings.zero.clean.Distinct.isBool = true ∧
          Settings.zero.clean.Distinct.isNumber = false) ∨
        (Settings.zero.clean.Distinct.isBool = false ∧
          Settings.zero.clean.Distinct.isNumber = true)) ∧
      ((Settings.zero.clean.RemoveStopWords.isBool = true ∧
          Settings.zero.clean.RemoveStopWords.isSequence = false) ∨
        (Settings.zero.clean.RemoveStopWords.isBool = false ∧
          Settings.zero.clean.RemoveStopWords.isSequence = true)) :=
  ⟨rfl, (clean_not_nil_and_permitted Settings.zero).2.2.1 (Or.inl rfl),
    (clean_not_nil_and_permitted Settings.zero).2.2.2 (Or.inl rfl)⟩

/-! ## The key set of `ToMap` -/

/-- The keys of the map literal are the 32 wire keys that are not polymorphic. -/
theorem initialMap_keys (s : Settings) : Map.keys s.initialMap = nonPolymorphicWireKeys := by
  simp [Map.keys, Settings.initialMap, nonPolymorphicWireKeys, wireKeys]

/-- When every `[]string` field is populated the first loop collects nothing. -/
theorem sliceAttributesToRemove_of_populated (s : Settings)
    (hfull : ∀ f ∈ stringSliceFields, (f.2 s).len ≠ 0) (k : String) :
    k ∉ (sliceAttributesToRemove s.initialMap).toList := by
  rw [mem_sliceAttributesToRemove]
  rintro ⟨v, hmem, hlen⟩
  simp [Settings.initialMap] at hmem
  simp [stringSliceFields] at hfull
  rcases hmem with h | h | h | h | h | h | h | h | h | h | h | h | h | h | h | h <;>
    (obtain ⟨-, rfl⟩ := h
     simp [hlen] at hfull)

/-- C10: when all 16 `[]string` fields are non-empty, the keys of the map returned
by `ToMap` are exactly the 32 wire keys other than `typoTolerance`, `distinct`
and `removeStopWords`, plus `distinct` exactly when `Distinct` is a boolean or a
number, plus `removeStopWords` exactly when `RemoveStopWords` is a boolean or a
`[]interface{}` with at least one string element. -/
theorem toMap_key_set (p : Platform) (s : Settings)
    (hfull : ∀ f ∈ stringSliceFields, (f.2 s).len ≠ 0) :
    nonPolymorphicWireKeys.length = 32 ∧
      ∀ k : String, k ∈ Map.keys (s.ToMap p).m ↔
        (k ∈ nonPolymorphicWireKeys ∨
          (k = "distinct" ∧ (s.Distinct.isBool = true ∨ s.Distinct.isNumber = true)) ∨
          (k = "removeStopWords" ∧
            (s.RemoveStopWords.isBool = true ∨
              ∃ v, s.RemoveStopWords = GoValue.slice v ∧
                ∃ lang, GoValue.string lang ∈ v.toList))) := by
  refine ⟨by decide, ?_⟩
  intro k
  have hnd : "distinct" ∉ nonPolymorphicWireKeys := by decide
  have hnr : "removeStopWords" ∉ nonPolymorphicWireKeys := by decide
  rw [Map.mem_keys_iff]
  by_cases hd : k = "distinct"
  · subst hd
    rw [ToMap_get_distinct]
    cases hdv : s.Distinct <;> simp [hnd, GoValue.isBool, GoValue.isNumber]
  · by_cases hr : k = "removeStopWords"
    · subst hr
      rw [ToMap_get_removeStopWords]
      cases hrv : s.RemoveStopWords with
      | slice v =>
        have hiff := stringElements_ne_nil_iff v.toList
        by_cases hl : stringElements v.toList = []
        · have hno : ¬ ∃ lang, GoValue.string lang ∈ v.toList := fun h => hiff.mpr h hl
          simp [hnr, hl, GoValue.isBool, hno]
        · have hyes : ∃ lang, GoValue.string lang ∈ v.toList := hiff.mp hl
          simp [hl, hyes]
      | _ => simp [hnr, GoValue.isBool]
    · rw [ToMap_get_of_ne p s hd hr,
        if_neg (sliceAttributesToRemove_of_populated s hfull k), ← Map.mem_keys_iff,
        initialMap_keys]
      simp [hd, hr]

/-- Witness for C10: in `Settings.populated` all 16 `[]string` fields hold one
element; `ranking` is a key of the map and `distinct` is not. -/
theorem toMap_key_set_witness :
    (∀ f ∈ stringSliceFields, (f.2 Settings.populated).len ≠ 0) ∧
      "ranking" ∈ Map.keys (Settings.populated.ToMap amd64).m ∧
      "distinct" ∉ Map.keys (Settings.populated.ToMap amd64).m :=
  have hfull : ∀ f ∈ stringSliceFields, (f.2 Settings.populated).len ≠ 0 := by
    simp [stringSliceFields, Settings.populated, Settings.zero, GoSlice.len, GoSlice.toList]
  ⟨hfull,
    ((toMap_key_set amd64 Settings.populated hfull).2 "ranking").mpr (Or.inl (by decide)),
    fun h => by
      have := ((toMap_key_set amd64 Settings.populated hfull).2 "distinct").mp h
      revert this
      simp [Settings.populated, Settings.zero, GoValue.isBool, GoValue.isNumber,
        nonPolymorphicWireKeys, wireKeys]⟩

/-! ## The entries of `ToMap` -/

/-- The keys the first loop collects from the map literal are the keys of the
`[]string` fields of length zero. -/
theorem mem_sliceAttributesToRemove_initialMap (s : Settings) (k : String) :
    k ∈ (sliceAttributesToRemove s.initialMap).toList ↔
      ∃ f ∈ stringSliceFields, f.1 = k ∧ (f.2 s).len = 0 := by
  rw [mem_sliceAttributesToRemove]
  constructor
  · rintro ⟨v, hmem, hlen⟩
    simp [Settings.initialMap] at hmem
    rcases hmem with h | h | h | h | h | h | h | h | h | h | h | h | h | h | h | h <;>
      (obtain ⟨rfl, rfl⟩ := h
       simp [stringSliceFields, hlen])
  · rintro ⟨f, hf, rfl, hlen⟩
    refine ⟨f.2 s, ?_, hlen⟩
    simp only [stringSliceFields, List.mem_cons, List.mem_singleton, List.not_mem_nil,
      or_false] at hf
    rcases hf with h | h | h | h | h | h | h | h | h | h | h | h | h | h | h | h <;>
      (subst h; simp [Settings.initialMap])

/-- C11: each of the 16 fields of type `bool`, `string` or `int` always has an
entry in the map returned by `ToMap`, under its wire key, holding the value of
the field, the zero value included; and each `[]string` field that is not empty
has an entry holding the same slice, with the same elements in the same order. -/
theorem toMap_entries (p : Platform) (s : Settings) :
    scalarFields.length = 16 ∧
      (∀ f ∈ scalarFields, Map.get (s.ToMap p).m f.1 = some (f.2 s)) ∧
      (∀ f ∈ stringSliceFields, (f.2 s).len ≠ 0 →
        Map.get (s.ToMap p).m f.1 = some (GoValue.strings (f.2 s))) := by
  refine ⟨rfl, ?_, ?_⟩
  · intro f hf
    have hne : f.1 ≠ "distinct" ∧ f.1 ≠ "removeStopWords" ∧
        (∀ g ∈ stringSliceFields, g.1 ≠ f.1) ∧ Map.get s.initialMap f.1 = some (f.2 s) := by
      simp only [scalarFields, List.mem_cons, List.mem_singleton, List.not_mem_nil,
        or_false] at hf
      rcases hf with h | h | h | h | h | h | h | h | h | h | h | h | h | h | h | h <;>
        (subst h
         refine ⟨by decide, by decide, ?_, rfl⟩
         simp [stringSliceFields])
    obtain ⟨hd, hr, hslice, hget⟩ := hne
    rw [ToMap_get_of_ne p s hd hr, if_neg, hget]
    rw [mem_sliceAttributesToRemove_initialMap]
    rintro ⟨g, hg, hgk, -⟩
    exact hslice g hg hgk
  · intro f hf hlen
    have hne : f.1 ≠ "distinct" ∧ f.1 ≠ "removeStopWords" ∧
        f.1 ∉ (sliceAttributesToRemove s.initialMap).toList ∧
        Map.get s.initialMap f.1 = some (GoValue.strings (f.2 s)) := by
      simp only [stringSliceFields, List.mem_cons, List.mem_singleton, List.not_mem_nil,
        or_false] at hf
      rcases hf with h | h | h | h | h | h | h | h | h | h | h | h | h | h | h | h <;>
        (subst h
         refine ⟨by decide, by decide, ?_, rfl⟩
         rw [mem_sliceAttributesToRemove]
         rintro ⟨v, hmem, hv⟩
         simp [Settings.initialMap] at hmem
         subst hmem
         exact hlen hv)
    obtain ⟨hd, hr, hnot, hget⟩ := hne
    rw [ToMap_get_of_ne p s hd hr, if_neg hnot, hget]

/-- Witness for C11: the zero `Settings` maps `hitsPerPage` to the `int` `0`, and
`Settings.populated` maps `ranking` to its one-element slice. -/
theorem toMap_entries_witness :
    Map.get (Settings.zero.ToMap amd64).m "hitsPerPage" = some (GoValue.int 0) ∧
      Settings.populated.Ranking.len ≠ 0 ∧
      Map.get (Settings.populated.ToMap amd64).m "ranking" =
        some (GoValue.strings (GoSlice.mk ["typo"])) :=
  ⟨(toMap_entries amd64 Settings.zero).2.1
      ("hitsPerPage", fun s => GoValue.int s.HitsPerPage) (by simp [scalarFields]),
    by decide,
    (toMap_entries amd64 Settings.populated).2.2 ("ranking", Settings.Ranking)
      (by simp [stringSliceFields]) (by decide)⟩

/-! ## Repeated calls of `ToMap` -/

theorem Map.foldl_delete_eq_filter (attrs : List String) (m : Map) :
    attrs.foldl (fun m attr => Map.delete m attr) m =
      m.filter (fun e => decide (e.1 ∉ attrs)) := by
  induction attrs generalizing m with
  | nil => simp
  | cons a rest ih =>
    rw [List.foldl_cons, ih, Map.delete, List.filter_filter]
    apply List.filter_congr
    intro e _
    by_cases h1 : e.1 = a <;> by_cases h2 : e.1 ∈ rest <;> simp [h1, h2]

/-- The map without its empty `[]string` entries is the same in whatever order
the first loop visits the entries. -/
theorem removeSliceAttributes_of_perm (m visit : Map) (h : visit.Perm m) :
    removeSliceAttributes m (visit.foldl collectEmptySlice GoSlice.nil) =
      removeSliceAttributes m (sliceAttributesToRemove m) := by
  unfold removeSliceAttributes
  rw [Map.foldl_delete_eq_filter, Map.foldl_delete_eq_filter]
  apply List.filter_congr
  intro e _
  have hiff : e.1 ∈ (visit.foldl collectEmptySlice GoSlice.nil).toList ↔
      e.1 ∈ (sliceAttributesToRemove m).toList := by
    rw [mem_sliceAttributesToRemove, mem_foldl_collectEmptySlice]
    simp only [GoSlice.toList, List.not_mem_nil, false_or]
    constructor
    · rintro ⟨v, hv, hl⟩
      exact ⟨v, h.mem_iff.mp hv, hl⟩
    · rintro ⟨v, hv, hl⟩
      exact ⟨v, h.mem_iff.mpr hv, hl⟩
  simp [hiff]

theorem ToMapRanging_of_perm (p : Platform) (s : Settings) (visit : Map)
    (h : visit.Perm s.initialMap) : s.ToMapRanging p visit = s.ToMap p := by
  unfold Settings.ToMapRanging Settings.ToMap
  simp only [removeSliceAttributes_of_perm s.initialMap visit h]

/-- C12: two calls of `ToMap` on the same `Settings` value, with nothing changing
it in between, return identical maps (the same entries, hence the same keys and
under every key the same value, slices in the same order) and write the same
lines, in whatever order each call happens to visit the entries of its map;
and a call leaves the `Settings` value as it was. -/
theorem toMap_twice_identical (p : Platform) (s : Settings) (visit₁ visit₂ : Map)
    (h₁ : visit₁.Perm s.initialMap) (h₂ : visit₂.Perm s.initialMap) :
    (s.ToMapCall p visit₁).1 = s ∧
      ((s.ToMapCall p visit₁).1.ToMapCall p visit₂).2 = (s.ToMapCall p visit₁).2 ∧
      (∀ k, k ∈ Map.keys ((s.ToMapCall p visit₁).1.ToMapCall p visit₂).2.m ↔
        k ∈ Map.keys (s.ToMapCall p visit₁).2.m) ∧
      (∀ k, Map.get ((s.ToMapCall p visit₁).1.ToMapCall p visit₂).2.m k =
        Map.get (s.ToMapCall p visit₁).2.m k) ∧
      (s.ToMapCall p visit₁).2 = s.ToMap p := by
  have h : ((s.ToMapCall p visit₁).1.ToMapCall p visit₂).2 = (s.ToMapCall p visit₁).2 := by
    simp only [Settings.ToMapCall]
    rw [ToMapRanging_of_perm p s visit₁ h₁, ToMapRanging_of_perm p s visit₂ h₂]
  refine ⟨rfl, h, ?_, ?_, ?_⟩
  · intro k
    rw [h]
  · intro k
    rw [h]
  · simp only [Settings.ToMapCall]
    exact ToMapRanging_of_perm p s visit₁ h₁

/-- Witness for C12: the zero `Settings`, visited first in the order of the map
literal and then in the reverse order. -/
theorem toMap_twice_identical_witness :
    ((Settings.zero.ToMapCall amd64 Settings.zero.initialMap).1.ToMapCall amd64
        Settings.zero.initialMap.reverse).2 =
      (Settings.zero.ToMapCall amd64 Settings.zero.initialMap).2 :=
  (toMap_twice_identical amd64 Settings.zero Settings.zero.initialMap
    Settings.zero.initialMap.reverse (List.Perm.refl _) (List.reverse_perm _)).2.1

/-! ## Truncation of `Distinct` -/

/-- C13 (as amended): when `Distinct` is a finite `float64` of value `q`, `ToMap`
maps `distinct` to the `int` obtained by truncating `q` toward zero, provided Go's
`int` can represent that integer; with a 64-bit `int` this is so for every
binary64 value that is not an integer. -/
theorem toMap_distinct_truncated (p : Platform) (s : Settings) (x : Float64) (q : ℚ)
    (hx : s.Distinct = GoValue.float64 x) (hq : x.toRat = some q) :
    (p.minInt ≤ truncTowardZero q → truncTowardZero q ≤ p.maxInt →
        Map.get (s.ToMap p).m "distinct" = some (GoValue.int (truncTowardZero q))) ∧
      (p.int64 = true → x.isValid = true → (∀ n : Int, q ≠ (n : ℚ)) →
        Map.get (s.ToMap p).m "distinct" = some (GoValue.int (truncTowardZero q))) := by
  have hfit : p.minInt ≤ truncTowardZero q → truncTowardZero q ≤ p.maxInt →
      Map.get (s.ToMap p).m "distinct" = some (GoValue.int (truncTowardZero q)) := by
    intro hmin hmax
    rw [ToMap_get_distinct, hx]
    simp only [float64ToInt, Float64.truncate_eq_truncTowardZero hq, hmin, hmax, and_self,
      if_true]
  refine ⟨hfit, ?_⟩
  intro h64 hv hni
  obtain ⟨hlo, hhi⟩ := Float64.truncate_bound_of_not_int hv hq hni
  apply hfit
  · simp only [Platform.minInt, Platform.intBits, h64, if_true]
    norm_num
    omega
  · simp only [Platform.maxInt, Platform.intBits, h64, if_true]
    norm_num
    omega

/-- Witness for C13: the binary64 value nearest to `2.7` gives the `int` `2` and
the one nearest to `-2.7` gives `-2`. -/
theorem toMap_distinct_truncated_witness :
    Map.get ({ Settings.zero with
        Distinct := GoValue.float64
          (Float64.finite false 6079859496950170 (-51)) }.ToMap amd64).m "distinct" =
        some (GoValue.int 2) ∧
      Map.get ({ Settings.zero with
        Distinct := GoValue.float64
          (Float64.finite true 6079859496950170 (-51)) }.ToMap amd64).m "distinct" =
        some (GoValue.int (-2)) := by
  have hpos : (Float64.finite false 6079859496950170 (-51)).toRat =
      some ((6079859496950170 : ℚ) / 2251799813685248) := by
    simp only [Float64.toRat, Bool.false_eq_true, if_false, Option.some.injEq]
    norm_num
  have hneg : (Float64.finite true 6079859496950170 (-51)).toRat =
      some (-((6079859496950170 : ℚ) / 2251799813685248)) := by
    simp only [Float64.toRat, if_true, Option.some.injEq]
    norm_num
  have hfloor : ⌊(6079859496950170 : ℚ) / 2251799813685248⌋ = 2 := by
    rw [Int.floor_eq_iff]
    constructor <;> norm_num
  have htpos : truncTowardZero ((6079859496950170 : ℚ) / 2251799813685248) = 2 := by
    rw [truncTowardZero_of_nonneg (by norm_num), hfloor]
  have htneg : truncTowardZero (-((6079859496950170 : ℚ) / 2251799813685248)) = -2 := by
    rw [truncTowardZero_neg_of_nonneg (by norm_num), hfloor]
  have hni : ∀ n : Int, (6079859496950170 : ℚ) / 2251799813685248 ≠ (n : ℚ) := by
    intro n hn
    have h1 : (2 : ℚ) < (n : ℚ) := by rw [← hn]; norm_num
    have h2 : (n : ℚ) < 3 := by rw [← hn]; norm_num
    have h3 : (2 : Int) < n := by exact_mod_cast h1
    have h4 : n < (3 : Int) := by exact_mod_cast h2
    omega
  constructor
  · have h := (toMap_distinct_truncated amd64
      { Settings.zero with
        Distinct := GoValue.float64 (Float64.finite false 6079859496950170 (-51)) }
      _ _ rfl hpos).2 rfl rfl hni
    rw [htpos] at h
    exact h
  · have h := (toMap_distinct_truncated amd64
      { Settings.zero with
        Distinct := GoValue.float64 (Float64.finite true 6079859496950170 (-51)) }
      _ _ rfl hneg).1
    rw [htneg] at h
    exact h (by simp [Platform.minInt, Platform.intBits, amd64])
      (by simp [Platform.maxInt, Platform.intBits, amd64])

/-- Counterexample to C13 as stated: `3000000000.5` is a binary64 value that is not
an integer and truncates to `3000000000`, yet with a 32-bit `int` `ToMap` never
maps `distinct` to `3000000000`; on 386 it maps `distinct` to `-2^31`. -/
theorem toMap_distinct_truncated_counterexample :
    (Float64.finite false 6000000001 (-1)).isValid = true ∧
      (Float64.finite false 6000000001 (-1)).toRat = some ((6000000001 : ℚ) / 2) ∧
      truncTowardZero ((6000000001 : ℚ) / 2) = 3000000000 ∧
      (∀ p : Platform, p.int64 = false →
        Map.get ({ Settings.zero with
            Distinct := GoValue.float64 (Float64.finite false 6000000001 (-1)) }.ToMap p).m
            "distinct" ≠
          some (GoValue.int 3000000000)) ∧
      Map.get ({ Settings.zero with
          Distinct := GoValue.float64 (Float64.finite false 6000000001 (-1)) }.ToMap i386).m
          "distinct" =
        some (GoValue.int (-2147483648)) := by
  refine ⟨rfl, ?_, ?_, ?_, rfl⟩
  · simp only [Float64.toRat, Bool.false_eq_true, if_false, Option.some.injEq]
    norm_num
  · rw [truncTowardZero_of_nonneg (by norm_num), Int.floor_eq_iff]
    constructor <;> norm_num
  · intro p h32 h
    rw [ToMap_get_distinct] at h
    simp only [Option.some.injEq, GoValue.int.injEq] at h
    have h1 := (float64ToInt_range p (Float64.finite false 6000000001 (-1))).2
    rw [h] at h1
    simp only [Platform.maxInt, Platform.intBits, h32] at h1
    norm_num at h1

/-! ## Diagnostics of `ToMap` -/

/-- C14: `ToMap` returns its result for every `Settings` value; and when
`RemoveStopWords` is a boolean or a `[]interface{}` all of whose elements are
strings, and `Distinct` is a boolean or a number, it writes no line at all,
neither to standard error nor to standard output. -/
theorem toMap_no_diagnostics (p : Platform) :
    (∀ s : Settings, ∃ r : ToMapResult, s.ToMap p = r) ∧
      (∀ s : Settings,
        (s.RemoveStopWords.isBool = true ∨
          ∃ v, s.RemoveStopWords = GoValue.slice v ∧
            ∀ itf ∈ v.toList, itf.isString = true) →
        (s.Distinct.isBool = true ∨ s.Distinct.isNumber = true) →
        (s.ToMap p).stderr = [] ∧ (s.ToMap p).stdout = []) := by
  refine ⟨fun s => ⟨_, rfl⟩, ?_⟩
  intro s hr _
  rcases hr with hb | ⟨v, hv, hall⟩
  · cases hrv : s.RemoveStopWords with
    | bool b => simp [Settings.ToMap, hrv, handleRemoveStopWords]
    | _ => simp [hrv, GoValue.isBool] at hb
  · have h0 : nonStringCount v.toList = 0 := by
      unfold nonStringCount
      rw [List.countP_eq_zero]
      intro itf hitf
      simp [hall itf hitf]
    constructor
    · rw [ToMap_stderr, hv]
      simp only [handleRemoveStopWords]
      rw [(foldl_collectLanguage v.toList (GoSlice.nil, [])).2, h0]
      rfl
    · simp only [Settings.ToMap, hv, handleRemoveStopWords]

/-- Witness for C14: `RemoveStopWords = ["en", "fr"]` next to `Distinct = true`
writes nothing. -/
theorem toMap_no_diagnostics_witness :
    ({ Settings.zero with
        Distinct := GoValue.bool true,
        RemoveStopWords := GoValue.slice
          (GoSlice.mk [GoValue.string "en", GoValue.string "fr"]) }.ToMap amd64).stderr = [] ∧
      ({ Settings.zero with
        Distinct := GoValue.bool true,
        RemoveStopWords := GoValue.slice
          (GoSlice.mk [GoValue.string "en", GoValue.string "fr"]) }.ToMap amd64).stdout = [] :=
  (toMap_no_diagnostics amd64).2
    { Settings.zero with
        Distinct := GoValue.bool true,
        RemoveStopWords := GoValue.slice
          (GoSlice.mk [GoValue.string "en", GoValue.string "fr"]) }
    (Or.inr ⟨_, rfl, by simp [GoSlice.toList, GoValue.isString]⟩) (Or.inl rfl)

/-- C16: when `RemoveStopWords` holds a `[]string` instead of the `[]interface{}`
that JSON decoding produces, `ToMap` takes the default arm of its type switch:
`removeStopWords` is absent from the map and the wrong-type line is written to
standard error (after the name of the type on standard output). -/
theorem toMap_removeStopWords_typed_strings (p : Platform) (s : Settings) (v : GoSlice String)
    (h : s.RemoveStopWords = GoValue.strings v) :
    Map.get (s.ToMap p).m "removeStopWords" = none ∧
      (s.ToMap p).stderr = [removeStopWordsTypeDiagnostic] ∧
      (s.ToMap p).stdout = ["[]string"] := by
  refine ⟨?_, ?_, ?_⟩
  · rw [ToMap_get_removeStopWords, h]
  · rw [ToMap_stderr, h]
    rfl
  · simp only [Settings.ToMap, h, handleRemoveStopWords, GoValue.typeName]

/-- Witness for C16: `RemoveStopWords = []string{"en", "fr"}`. -/
theorem toMap_removeStopWords_typed_strings_witness :
    Map.get ({ Settings.zero with
        RemoveStopWords := GoValue.strings (GoSlice.mk ["en", "fr"]) }.ToMap amd64).m
        "removeStopWords" = none ∧
      ({ Settings.zero with
        RemoveStopWords := GoValue.strings (GoSlice.mk ["en", "fr"]) }.ToMap amd64).stderr =
        [removeStopWordsTypeDiagnostic] ∧
      ({ Settings.zero with
        RemoveStopWords := GoValue.strings (GoSlice.mk ["en", "fr"]) }.ToMap amd64).stdout =
        ["[]string"] :=
  toMap_removeStopWords_typed_strings amd64
    { Settings.zero with RemoveStopWords := GoValue.strings (GoSlice.mk ["en", "fr"]) }
    (GoSlice.mk ["en", "fr"]) rfl

/-! ## `clean` followed by `ToMap` -/

theorem clean_initialMap (s : Settings) : s.clean.initialMap = s.initialMap := by
  unfold Settings.clean
  cases hd : s.Distinct <;> cases hr : s.RemoveStopWords <;>
    simp [hd, hr, Settings.initialMap]

/-- C15: when `Distinct` and `RemoveStopWords` are both the nil interface, the map
returned by `ToMap` has neither `distinct` nor `removeStopWords`; after `clean`
it maps both to the boolean `false`, and under every other key it holds what the
map of the value that was not cleaned holds. -/
theorem toMap_after_clean (p : Platform) (s : Settings)
    (hd : s.Distinct = GoValue.nil) (hr : s.RemoveStopWords = GoValue.nil) :
    Map.get (s.ToMap p).m "distinct" = none ∧
      Map.get (s.ToMap p).m "removeStopWords" = none ∧
      Map.get (s.clean.ToMap p).m "distinct" = some (GoValue.bool false) ∧
      Map.get (s.clean.ToMap p).m "removeStopWords" = some (GoValue.bool false) ∧
      (∀ k, k ≠ "distinct" → k ≠ "removeStopWords" →
        Map.get (s.clean.ToMap p).m k = Map.get (s.ToMap p).m k) := by
  have hcd : s.clean.Distinct = GoValue.bool false := by
    simp [Settings.clean, hd, hr]
  have hcr : s.clean.RemoveStopWords = GoValue.bool false := by
    simp [Settings.clean, hd, hr]
  refine ⟨?_, ?_, ?_, ?_, ?_⟩
  · rw [ToMap_get_distinct, hd]
  · rw [ToMap_get_removeStopWords, hr]
  · rw [ToMap_get_distinct, hcd]
  · rw [ToMap_get_removeStopWords, hcr]
  · intro k hkd hkr
    rw [ToMap_get_of_ne p s.clean hkd hkr, ToMap_get_of_ne p s hkd hkr, clean_initialMap]

/-- Witness for C15: the zero `Settings`. -/
theorem toMap_after_clean_witness :
    Map.get (Settings.zero.ToMap amd64).m "distinct" = none ∧
      Map.get (Settings.zero.clean.ToMap amd64).m "distinct" = some (GoValue.bool false) ∧
      Map.get (Settings.zero.clean.ToMap amd64).m "removeStopWords" =
        some (GoValue.bool false) ∧
      Map.get (Settings.zero.clean.ToMap amd64).m "hitsPerPage" =
        Map.get (Settings.zero.ToMap amd64).m "hitsPerPage" :=
  ⟨(toMap_after_clean amd64 Settings.zero rfl rfl).1,
    (toMap_after_clean amd64 Settings.zero rfl rfl).2.2.1,
    (toMap_after_clean amd64 Settings.zero rfl rfl).2.2.2.1,
    (toMap_after_clean amd64 Settings.zero rfl rfl).2.2.2.2 "hitsPerPage"
      (by decide) (by decide)⟩

/-- C17: `clean` applied twice gives the same `Settings` as `clean` applied once;
and when neither `Distinct` nor `RemoveStopWords` is the nil interface, `clean`
returns the `Settings` value unchanged. -/
theorem clean_idempotent (s : Settings) :
    s.clean.clean = s.clean ∧
      (s.Distinct ≠ GoValue.nil → s.RemoveStopWords ≠ GoValue.nil → s.clean = s) := by
  constructor
  · unfold Settings.clean
    cases hd : s.Distinct <;> cases hr : s.RemoveStopWords <;> simp [hd, hr]
  · intro hd hr
    unfold Settings.clean
    cases hdv : s.Distinct <;> cases hrv : s.RemoveStopWords <;> simp_all

/-- Witness for C17: a `Settings` value holding `true` in `Distinct` and `false` in
`RemoveStopWords` is returned unchanged. -/
theorem clean_idempotent_witness :
    ({ Settings.zero with
        Distinct := GoValue.bool true, RemoveStopWords := GoValue.bool false }).clean =
      { Settings.zero with
        Distinct := GoValue.bool true, RemoveStopWords := GoValue.bool false } :=
  (clean_idempotent { Settings.zero with
        Distinct := GoValue.bool true, RemoveStopWords := GoValue.bool false }).2
    (by simp) (by simp)

end Algoliasearch
